import Mathlib

/-
Verification development for the "vid" watch-together repository.

Shallow embedding of the core synchronization machinery:
* the Socket.IO server (server/index.ts): room registry, timeline mutations
  (play / pause / seek / rate), presence (join / ready / disconnect), host
  handoff, heartbeat re-broadcast timer;
* the client timeline math (src/lib/ws.ts): `computeTargetTime`;
* the follower drift-correction tick (src/routes/room.$id.tsx): PI controller
  with hard-seek branch, and the clock-skew EMA from the `pong` handler;
* the peer-mesh negotiation (src/components/VideoStrip.tsx): polite/impolite
  collision resolution and local-track enablement.

JavaScript numbers are modelled as exact rationals (`ℚ`); epoch-millisecond
server timestamps as integers (`ℤ`).  JS string comparison (`>` on strings) is
modelled by code-unit lexicographic comparison on the character lists.
-/

namespace Vid

/-! ### Timeline state and `computeTargetTime` (src/lib/ws.ts)

The server's `RoomState` (server/index.ts) and the client's `ServerState`
(src/lib/ws.ts) carry the same four timeline fields plus an optional `src`;
the client type adds only an optional subtitle-track list that
`computeTargetTime` never reads, so a single structure embeds both. -/

structure RoomState where
  isPlaying : Bool
  baseMediaTime : ℚ
  baseServerTime : ℤ
  playbackRate : ℚ
  src : Option String
  deriving DecidableEq

/-- Embedding of `computeTargetTime(state, nowMs)` from src/lib/ws.ts:
`elapsed = (nowMs - state.baseServerTime) / 1000`;
`add = state.isPlaying ? elapsed * state.playbackRate : 0`;
result `state.baseMediaTime + add`. -/
def computeTargetTime (state : RoomState) (nowMs : ℚ) : ℚ :=
  let elapsed := (nowMs - (state.baseServerTime : ℚ)) / 1000
  let add := if state.isPlaying then elapsed * state.playbackRate else 0
  state.baseMediaTime + add

/-! ### Server timeline mutations (server/index.ts socket handlers) -/

/-- Embedding of the `socket.on('play')` handler body acting on `room.state`. -/
def playStep (st : RoomState) (now : ℤ) : RoomState :=
  let elapsed : ℚ := ((now : ℚ) - (st.baseServerTime : ℚ)) / 1000
  let current := st.baseMediaTime + (if st.isPlaying then elapsed * st.playbackRate else 0)
  { st with isPlaying := true, baseMediaTime := current, baseServerTime := now }

/-- Embedding of the `socket.on('pause')` handler body: freeze at the supplied
`atMediaTime` when it is a number, else at the recomputed current position. -/
def pauseStep (st : RoomState) (now : ℤ) (atMediaTime : Option ℚ) : RoomState :=
  let elapsed : ℚ := ((now : ℚ) - (st.baseServerTime : ℚ)) / 1000
  let computed := st.baseMediaTime + (if st.isPlaying then elapsed * st.playbackRate else 0)
  { st with isPlaying := false, baseServerTime := now,
            baseMediaTime := match atMediaTime with
              | some a => a
              | none => computed }

/-- Embedding of the `socket.on('seek')` handler body:
`baseMediaTime = Math.max(0, toMediaTime)`, `baseServerTime = now`. -/
def seekStep (st : RoomState) (now : ℤ) (toMediaTime : ℚ) : RoomState :=
  { st with baseMediaTime := max 0 toMediaTime, baseServerTime := now }

/-- Embedding of the `socket.on('rate')` handler body: rebase to the current
position computed with the old rate, then clamp the new rate to [0.25, 4]. -/
def rateStep (st : RoomState) (now : ℤ) (playbackRate : ℚ) : RoomState :=
  let elapsed : ℚ := ((now : ℚ) - (st.baseServerTime : ℚ)) / 1000
  let current := st.baseMediaTime + (if st.isPlaying then elapsed * st.playbackRate else 0)
  { st with baseMediaTime := current, baseServerTime := now,
            playbackRate := max 0.25 (min 4 playbackRate) }

/-! ### Presence: participants, rooms, registry (server/index.ts) -/

inductive Role
  | host
  | viewer
  deriving DecidableEq

/-- Embedding of `PresenceUser` (`ready?: boolean` is absent until the first
`ready` message, hence an `Option`). -/
structure PresenceUser where
  id : String
  name : String
  role : Role
  ready : Option Bool
  deriving DecidableEq

/-- JS `Map.prototype.set`: replace in place when the key is present
(preserving insertion order), else append. -/
def usersSet (us : List PresenceUser) (u : PresenceUser) : List PresenceUser :=
  if us.any (fun v => v.id = u.id) then
    us.map (fun v => if v.id = u.id then u else v)
  else us ++ [u]

/-- JS `Map.prototype.delete`. -/
def usersDelete (us : List PresenceUser) (sid : String) : List PresenceUser :=
  us.filter (fun v => v.id ≠ sid)

/-- Embedding of the server's `Room` record.  The `heartbeat` interval handle
lives in `Registry.heartbeatActive` below, since this model tracks one room. -/
structure Room where
  state : RoomState
  users : List PresenceUser
  hostSocketId : Option String
  deriving DecidableEq

/-- The process-wide `rooms` map, restricted to one room id: `room = none`
means the id is absent from the map.  `heartbeatActive` records whether the
room's 2-second re-broadcast `setInterval` is running. -/
structure Registry where
  room : Option Room
  heartbeatActive : Bool
  deriving DecidableEq

/-- Fresh room state created by `getOrCreateRoom`. -/
def defaultRoomState (now : ℤ) : RoomState :=
  { isPlaying := false, baseMediaTime := 0, baseServerTime := now,
    playbackRate := 1, src := none }

/-- Embedding of `getOrCreateRoom`. -/
def getOrCreateRoom (now : ℤ) : Option Room → Room
  | some r => r
  | none => { state := defaultRoomState now, users := [], hostSocketId := none }

/-- Inbound events of the room protocol (one room id). -/
inductive SEvent
  | join (sid : String) (name : Option String) (asHost : Bool) (src : Option String)
  | play
  | pause (atMediaTime : Option ℚ)
  | seek (toMediaTime : ℚ)
  | rate (playbackRate : ℚ)
  | ready (sid : String) (flag : Bool)
  | disconnect (sid : String)

/-- Embedding of the `socket.on('join')` handler: role assignment
(`asHost || !room.hostSocketId`), host-socket tracking, user insertion,
initial `src` (JS truthiness: the empty string does not count), and starting
the heartbeat when it is not already running. -/
def joinStep (w : Registry) (now : ℤ) (sid : String) (name : Option String)
    (asHost : Bool) (src : Option String) : Registry :=
  let room := getOrCreateRoom now w.room
  let role := if asHost = true ∨ room.hostSocketId = none then Role.host else Role.viewer
  let room1 := if role = Role.host then { room with hostSocketId := some sid } else room
  let resolvedName := match name with
    | some n => if n = "" then "user-" ++ sid.take 4 else n
    | none => "user-" ++ sid.take 4
  let user : PresenceUser := { id := sid, name := resolvedName, role := role, ready := none }
  let room2 := { room1 with users := usersSet room1.users user }
  let room3 := match role, src with
    | Role.host, some s =>
        if s = "" then room2
        else { room2 with state := { room2.state with src := some s } }
    | _, _ => room2
  { room := some room3, heartbeatActive := true }

/-- Embedding of the `socket.on('ready')` handler: update the joined user's
`ready` flag in place (the handler rewrites the caller's own map entry). -/
def readyStep (w : Registry) (now : ℤ) (sid : String) (flag : Bool) : Registry :=
  let room := getOrCreateRoom now w.room
  { w with room := some { room with
      users := room.users.map (fun v => if v.id = sid then { v with ready := some flag } else v) } }

/-- Room part of the `socket.on('disconnect')` handler: remove the user; if
it was the tracked host, hand the host role to the first remaining user in
map iteration order (`users.values().next()`). -/
def disconnectRoom (room : Room) (sid : String) : Room :=
  let room1 := { room with users := usersDelete room.users sid }
  if room1.hostSocketId = some sid then
    let cleared := { room1 with hostSocketId := none }
    match cleared.users.head? with
    | some first =>
        let promoted := { first with role := Role.host }
        { cleared with hostSocketId := some first.id,
                       users := usersSet cleared.users promoted }
    | none => cleared
  else room1

/-- Embedding of the `socket.on('disconnect')` handler: apply
`disconnectRoom`; if the room became empty, clear the heartbeat interval and
delete the room from the registry. -/
def disconnectStep (w : Registry) (now : ℤ) (sid : String) : Registry :=
  let room2 := disconnectRoom (getOrCreateRoom now w.room) sid
  if room2.users.isEmpty then { room := none, heartbeatActive := false }
  else { w with room := some room2 }

/-- One inbound message processed at server time `now` (the single-threaded
event loop applies each mutation atomically). -/
def step (w : Registry) (now : ℤ) : SEvent → Registry
  | .join sid name asHost src => joinStep w now sid name asHost src
  | .play =>
      let room := getOrCreateRoom now w.room
      { w with room := some { room with state := playStep room.state now } }
  | .pause a =>
      let room := getOrCreateRoom now w.room
      { w with room := some { room with state := pauseStep room.state now a } }
  | .seek tm =>
      let room := getOrCreateRoom now w.room
      { w with room := some { room with state := seekStep room.state now tm } }
  | .rate r =>
      let room := getOrCreateRoom now w.room
      { w with room := some { room with state := rateStep room.state now r } }
  | .ready sid flag => readyStep w now sid flag
  | .disconnect sid => disconnectStep w now sid

/-- Fold a timed event trace through `step`. -/
def applyTrace (w : Registry) : List (ℤ × SEvent) → Registry
  | [] => w
  | (t, e) :: rest => applyTrace (step w t e) rest

/-- The empty registry: no room, no heartbeat. -/
def reg0 : Registry := { room := none, heartbeatActive := false }

/-- Number of participants currently holding role `'host'` in the room. -/
def hostCount (w : Registry) : ℕ :=
  match w.room with
  | some r => r.users.countP (fun u => u.role = Role.host)
  | none => 0

/-! ### Follower drift-correction tick (src/routes/room.$id.tsx)

Both the `requestVideoFrameCallback` loop and the `setInterval` fallback loop
execute the same body; `driftTick` embeds that body.  Its outputs: the hard
seek performed (if any), the PI integral after the tick, and the playback
rate handed to `api.setRate` (if any). -/

structure TickResult where
  seekTo : Option ℚ
  integral : ℚ
  appliedRate : Option ℚ
  deriving DecidableEq

/-- Embedding of one drift-correction tick.  `nowWithSkew` is
`Date.now() + skewRef.current`; `current` is `api.getCurrentTime()`;
`integral0`/`lastTime` are the PI state `piRef.current`; `nowPerf` is
`performance.now()`; `videoRate` is the currently applied `video.playbackRate`. -/
def driftTick (s : RoomState) (nowWithSkew : ℚ) (current : ℚ) (rttMs : ℚ)
    (integral0 : ℚ) (nowPerf : ℚ) (lastTime : ℚ) (videoPaused : Bool)
    (videoRate : ℚ) : TickResult :=
  let target := computeTargetTime s nowWithSkew
  let drift := current - target
  let seekThreshold := max 1.2 (rttMs / 250)
  if |drift| > seekThreshold then
    { seekTo := some target, integral := 0, appliedRate := none }
  else
    let baseline := if s.playbackRate = 0 then 1 else s.playbackRate
    let dt := max 0.05 ((nowPerf - lastTime) / 1000)
    let integral1 :=
      if s.isPlaying && !videoPaused then
        max (-2) (min 2 (integral0 + drift * dt))
      else integral0
    let nextRate := baseline - 0.25 * drift - 0.05 * integral1
    let minRate := max 0.5 (baseline - 0.15)
    let maxRate := min 2.0 (baseline + 0.15)
    let clamped := max minRate (min maxRate nextRate)
    { seekTo := none, integral := integral1,
      appliedRate := if |videoRate - clamped| > 0.005 then some clamped else none }

/-! ### Clock-skew estimator (the `pong` handler in src/routes/room.$id.tsx) -/

/-- Embedding of the `socket.on('pong')` handler: `rtt = t2 - t0`,
`serverTimeAtRecv = t1 + rtt / 2`, `measuredSkew = serverTimeAtRecv - t2`,
then the exponential moving average with `alpha = 0.2`. -/
def pongUpdate (ema t0 t1 t2 : ℚ) : ℚ :=
  let rtt := t2 - t0
  let serverTimeAtRecv := t1 + rtt / 2
  let measuredSkew := serverTimeAtRecv - t2
  let alpha : ℚ := 0.2
  (1 - alpha) * ema + alpha * measuredSkew

/-- Synthetic probe run: the server clock leads the local clock by `offset`,
each direction takes exactly `delay` (zero jitter, symmetric), probes fire
every 2000 ms, and the EMA starts from `skewEmaRef.current = 0`.  Probe `n`
leaves at local `t0 = 2000 n`, so the server replies with
`t1 = t0 + delay + offset` and the reply lands at `t2 = t0 + 2 delay`. -/
def skewAfterProbes (offset delay : ℚ) : ℕ → ℚ
  | 0 => 0
  | n + 1 =>
    let t0 : ℚ := 2000 * n
    pongUpdate (skewAfterProbes offset delay n) t0 (t0 + delay + offset) (t0 + 2 * delay)

/-! ### Peer-mesh perfect negotiation (src/components/VideoStrip.tsx) -/

/-- Code-unit lexicographic comparison of character lists, embedding the JS
`<` operator on strings (for code points below 0x10000 the UTF-16 code-unit
order used by JS coincides with code-point order). -/
def ltChars : List Char → List Char → Bool
  | [], [] => false
  | [], _ :: _ => true
  | _ :: _, [] => false
  | c :: cs, d :: ds =>
    if c.toNat < d.toNat then true
    else if d.toNat < c.toNat then false
    else ltChars cs ds

/-- JS string comparison `a < b`. -/
def jsStrLt (a b : String) : Bool := ltChars a.data b.data

/-- Embedding of `const polite = !!myId && myId > peerId` in
`createPeerConnection`. -/
def politeOf (myId peerId : String) : Bool :=
  !myId.isEmpty && jsStrLt peerId myId

/-- WebRTC signaling states relevant to the negotiation model. -/
inductive SigState
  | stable
  | haveLocalOffer
  | haveRemoteOffer
  deriving DecidableEq

/-- The negotiation-relevant slice of a `PeerConnectionRecord`: the
`makingOffer` flag, the precomputed `polite` flag, and the connection's
signaling state. -/
structure PeerRec where
  makingOffer : Bool
  polite : Bool
  signaling : SigState
  deriving DecidableEq

/-- Embedding of `handleOffer` for an incoming description of type `offer`:
`offerCollision = makingOffer || signalingState !== 'stable'`; an impolite
peer in collision returns without touching the connection; otherwise the
offer is applied as the remote description (with implicit rollback of any
local offer), an answer is created and set locally (reaching `stable`), and
the answer is sent.  The returned Bool records whether an answer was sent. -/
def handleOffer (rec : PeerRec) : PeerRec × Bool :=
  let offerCollision := rec.makingOffer || decide (rec.signaling ≠ SigState.stable)
  if offerCollision && !rec.polite then (rec, false)
  else ({ rec with signaling := SigState.stable }, true)

/-- Embedding of `handleAnswer`: `setRemoteDescription(answer)` moves a
connection holding a local offer back to `stable`. -/
def handleAnswer (rec : PeerRec) : PeerRec :=
  { rec with signaling := SigState.stable }

/-- Record of a peer that has just sent its own offer
(`onnegotiationneeded` completed: local description set, `makingOffer`
already reset by the `finally` block). -/
def offerSent (polite : Bool) : PeerRec :=
  { makingOffer := false, polite := polite, signaling := SigState.haveLocalOffer }

/-! ### Local camera-track enablement (src/components/VideoStrip.tsx) -/

/-- Observable state of the local capture: page visibility, number of
connected remote peers (`peerIds.length`), and the local tracks' `enabled`
flag (all local tracks are toggled together). -/
structure StripState where
  visible : Bool
  peerCount : ℕ
  trackEnabled : Bool
  deriving DecidableEq

/-- Embedding of the `visibilitychange` handler `onVis`: every local track's
`enabled` is set to whether the document became visible (the peer count is
not consulted). -/
def onVisibilityChange (s : StripState) (nowVisible : Bool) : StripState :=
  { s with visible := nowVisible, trackEnabled := nowVisible }

/-- Embedding of the peer-count effect: on a change of the connected-peer
set, `enabled = peerIds.length > 0 && document.visibilityState === 'visible'`. -/
def onPeerCountChange (s : StripState) (peers : ℕ) : StripState :=
  { s with peerCount := peers, trackEnabled := decide (0 < peers) && s.visible }

/-! ## Theorems -/

/-- Claim C1: for every room timeline state and every play, pause, seek, or
rate mutation applied at server time `now`, `computeTargetTime` of the new
state at `now` equals the explicitly set reference value: the position
recomputed via `target(now)` for play and rate, the clamped `toMediaTime`
for seek, and the supplied `atMediaTime` if present else the recomputed
position for pause — zero residual drift at the instant of the event. -/
theorem mutations_leave_zero_drift (st : RoomState) (now : ℤ) (a tm r : ℚ) :
    computeTargetTime (playStep st now) (now : ℚ) = computeTargetTime st (now : ℚ) ∧
    computeTargetTime (pauseStep st now none) (now : ℚ) = computeTargetTime st (now : ℚ) ∧
    computeTargetTime (pauseStep st now (some a)) (now : ℚ) = a ∧
    computeTargetTime (seekStep st now tm) (now : ℚ) = max 0 tm ∧
    computeTargetTime (rateStep st now r) (now : ℚ) = computeTargetTime st (now : ℚ) := by
  refine ⟨?_, ?_, ?_, ?_, ?_⟩ <;>
    simp [computeTargetTime, playStep, pauseStep, seekStep, rateStep]

/-- Claim C9: `computeTargetTime` is pure — repeated calls with identical
inputs return equal results — and for every state with `isPlaying = true` and
`playbackRate > 0` it is strictly increasing in `now`. -/
theorem computeTargetTime_pure_and_strictMono :
    (∀ (st : RoomState) (n : ℚ), computeTargetTime st n = computeTargetTime st n) ∧
    (∀ (st : RoomState) (n1 n2 : ℚ), st.isPlaying = true → 0 < st.playbackRate →
      n1 < n2 → computeTargetTime st n1 < computeTargetTime st n2) := by
  constructor
  · intro st n
    rfl
  · intro st n1 n2 hplay hrate hlt
    simp only [computeTargetTime, hplay, if_true]
    have helapsed : (n1 - (st.baseServerTime : ℚ)) / 1000 <
        (n2 - (st.baseServerTime : ℚ)) / 1000 := by linarith
    nlinarith [mul_lt_mul_of_pos_right helapsed hrate]

/-- Demonstration state from the spec's example: playing, `baseMediaTime` 10
seconds, `baseServerTime` `T = 0`, rate 1. -/
def demoPlaying : RoomState :=
  { isPlaying := true, baseMediaTime := 10, baseServerTime := 0,
    playbackRate := 1, src := none }

/-- Witness for claim C9: the strict-monotonicity hypotheses are satisfiable —
on the spec's example state the target strictly grows from `now = 0` to
`now = 5000`. -/
theorem computeTargetTime_strictMono_witness :
    computeTargetTime demoPlaying 0 < computeTargetTime demoPlaying 5000 :=
  computeTargetTime_pure_and_strictMono.2 demoPlaying 0 5000 rfl
    (by norm_num [demoPlaying]) (by norm_num)

/-- Claim C10 counterexample: starting from a visible page with one connected
peer, let the peer set shrink to zero (tracks disabled), hide the tab, then
make the tab visible again.  The `visibilitychange` handler re-enables the
local tracks from visibility alone, so the track ends enabled while zero
remote peers are connected — contradicting the claim that after every
track-enablement event the flag is true only if at least one peer is
connected. -/
theorem visibility_reenables_with_zero_peers :
    (onVisibilityChange
        (onVisibilityChange
          (onPeerCountChange { visible := true, peerCount := 1, trackEnabled := true } 0)
          false)
        true).trackEnabled = true ∧
    (onVisibilityChange
        (onVisibilityChange
          (onPeerCountChange { visible := true, peerCount := 1, trackEnabled := true } 0)
          false)
        true).peerCount = 0 := by
  constructor <;> rfl

/-- Claim C10 (amended): after every change of the connected-peer set the
local track is enabled exactly when at least one remote peer is connected and
the page is visible; but the `visibilitychange` handler sets the enabled flag
to the new visibility alone, so a return to visibility re-enables the track
even with zero connected peers. -/
theorem track_enabled_iff_peers_and_visible :
    (∀ (s : StripState) (n : ℕ),
      (onPeerCountChange s n).trackEnabled = true ↔ (0 < n ∧ s.visible = true)) ∧
    (∀ (s : StripState) (v : Bool), (onVisibilityChange s v).trackEnabled = v) := by
  constructor
  · intro s n
    simp [onPeerCountChange]
  · intro s v
    rfl

/-- Asymmetry of the code-unit lexicographic order. -/
theorem ltChars_asymm : ∀ {xs ys : List Char},
    ltChars xs ys = true → ltChars ys xs = false := by
  intro xs
  induction xs with
  | nil =>
    intro ys h
    cases ys with
    | nil => simp [ltChars] at h
    | cons d ds => simp [ltChars]
  | cons c cs ih =>
    intro ys h
    cases ys with
    | nil => simp [ltChars] at h
    | cons d ds =>
      by_cases h1 : c.toNat < d.toNat
      · have h2 : ¬ d.toNat < c.toNat := by omega
        simp [ltChars, h1, h2]
      · by_cases h2 : d.toNat < c.toNat
        · simp [ltChars, h1, h2] at h
        · simp only [ltChars, if_neg h1, if_neg h2] at h
          simp [ltChars, h1, h2, ih h]

/-- A nonempty list is never below the empty one, so `ltChars xs ys = true`
forces `ys` to be nonempty. -/
theorem ltChars_ne_nil {xs ys : List Char} (h : ltChars xs ys = true) :
    ys ≠ [] := by
  intro hy
  subst hy
  cases xs <;> simp [ltChars] at h

/-- Claim C6: for every pair of peer ids, the side whose own id is
lexicographically greater is polite; and in a simultaneous-offer collision
between `"a"` and `"b"` — both having an offer in flight — the impolite
`"a"` end discards the incoming offer (its record untouched, no answer),
while the polite `"b"` end accepts it as remote description and replies with
an answer, after which `"a"` applies that answer: both connections end in the
`stable` state and exactly one of the two offers was answered, yielding a
single consistent connection rather than two. -/
theorem perfect_negotiation_resolution :
    (∀ a b : String, jsStrLt a b = true →
      politeOf b a = true ∧ politeOf a b = false) ∧
    handleOffer (offerSent (politeOf "a" "b")) = (offerSent (politeOf "a" "b"), false) ∧
    handleOffer (offerSent (politeOf "b" "a")) =
      ({ makingOffer := false, polite := true, signaling := SigState.stable }, true) ∧
    handleAnswer (offerSent (politeOf "a" "b")) =
      { makingOffer := false, polite := false, signaling := SigState.stable } := by
  refine ⟨?_, by decide, by decide, by decide⟩
  intro a b h
  have hb : b.data ≠ [] := ltChars_ne_nil h
  have hbne : b ≠ "" := by
    intro hbe
    apply hb
    rw [hbe]
  have hbf : b.isEmpty = false := by
    cases hie : b.isEmpty
    · rfl
    · exact absurd ((String.isEmpty_iff b).mp hie) hbne
  constructor
  · simp only [politeOf, jsStrLt, Bool.and_eq_true, Bool.not_eq_true']
    exact ⟨hbf, h⟩
  · simp [politeOf, jsStrLt, ltChars_asymm h]

/-- Witness for claim C6: at the concrete pair `"a" < "b"` the hypothesis of
the politeness rule holds, and `"b"` is polite while `"a"` is impolite. -/
theorem perfect_negotiation_witness :
    politeOf "b" "a" = true ∧ politeOf "a" "b" = false :=
  perfect_negotiation_resolution.1 "a" "b" (by decide)

/-- Closed form of the synthetic skew run: with a fixed server offset and
symmetric delay every probe measures exactly `offset`, so the EMA after `n`
probes is `offset * (1 - (4/5)^n)`. -/
theorem skewAfterProbes_closed (offset delay : ℚ) (n : ℕ) :
    skewAfterProbes offset delay n = offset * (1 - (4/5) ^ n) := by
  induction n with
  | zero => simp [skewAfterProbes]
  | succ n ih =>
    simp only [skewAfterProbes, pongUpdate]
    rw [ih]
    ring

/-- Claim C4 counterexample: with a fixed +750 ms server offset, zero jitter
and symmetric 50 ms delay, after exactly 10 probe samples the EMA at α = 0.2
is 750·(1 − 0.8¹⁰) ≈ 669.5 ms — more than 80 ms away from 750, not within
10 ms as claimed. -/
theorem skew_not_within_10ms_after_10 :
    10 < |skewAfterProbes 750 50 10 - 750| := by
  rw [skewAfterProbes_closed]
  norm_num [abs]

/-- Claim C4 (amended): with a synthetic fixed server offset of +750 ms, zero
jitter and symmetric delay, the α = 0.2 EMA started from 0 is within 10 ms of
750 after 20 probe samples (about 10 samples only reach within ≈81 ms; 20 are
needed for 10 ms). -/
theorem skew_within_10ms_after_20 (delay : ℚ) :
    |skewAfterProbes 750 delay 20 - 750| ≤ 10 := by
  rw [skewAfterProbes_closed]
  norm_num [abs]

/-- Claim C5: on every drift-correction tick where the absolute drift between
the local position and the target exceeds `max(1.2 s, rtt/250)`, the
controller hard-seeks to the target and resets the PI integral to exactly 0;
a tick at or below the threshold never hard-seeks.  Both the
`requestVideoFrameCallback` loop and the interval fallback run this body. -/
theorem driftTick_seek_iff_threshold
    (s : RoomState) (nowWithSkew current rttMs integral0 nowPerf lastTime : ℚ)
    (videoPaused : Bool) (videoRate : ℚ) :
    (|current - computeTargetTime s nowWithSkew| > max 1.2 (rttMs / 250) →
      driftTick s nowWithSkew current rttMs integral0 nowPerf lastTime videoPaused
          videoRate =
        { seekTo := some (computeTargetTime s nowWithSkew), integral := 0,
          appliedRate := none }) ∧
    (|current - computeTargetTime s nowWithSkew| ≤ max 1.2 (rttMs / 250) →
      (driftTick s nowWithSkew current rttMs integral0 nowPerf lastTime videoPaused
          videoRate).seekTo = none) := by
  constructor
  · intro h
    simp only [driftTick]
    rw [if_pos h]
  · intro h
    simp only [driftTick]
    rw [if_neg (not_lt.mpr h)]

/-- Witness for claim C5: both hypotheses are satisfiable — on the spec's
example state a 10-second drift (threshold `max(1.2, 200/250) = 1.2`) takes
the seek branch and zeroes the integral, while a 0.5-second drift does not
seek. -/
theorem driftTick_seek_witness :
    driftTick demoPlaying 0 20 200 0.5 300 0 false 1 =
      { seekTo := some 10, integral := 0, appliedRate := none } ∧
    (driftTick demoPlaying 0 10.5 200 0.5 300 0 false 1).seekTo = none := by
  constructor
  · have h := (driftTick_seek_iff_threshold demoPlaying 0 20 200 0.5 300 0 false 1).1
      (by norm_num [computeTargetTime, demoPlaying, abs])
    rw [h]
    norm_num [computeTargetTime, demoPlaying]
  · exact (driftTick_seek_iff_threshold demoPlaying 0 10.5 200 0.5 300 0 false 1).2
      (by norm_num [computeTargetTime, demoPlaying, abs])

/-- Timeline state with the authoritative rate at the server-permitted
minimum 0.25. -/
def lowRateState : RoomState :=
  { isPlaying := true, baseMediaTime := 10, baseServerTime := 0,
    playbackRate := 0.25, src := none }

/-- Claim C3 counterexample: with the authoritative `playbackRate` at 0.25 —
inside the server-permitted range [0.25, 4] — and zero drift, the tick
applies rate 0.5, which is outside [0.25 − 0.15, 0.25 + 0.15] = [0.1, 0.4]
(the claimed intersection with [0.5, 2.0] is empty there). -/
theorem low_baseline_rate_outside_band :
    (driftTick lowRateState 0 10 200 0 300 0 false 0.25).appliedRate = some 0.5 ∧
    ¬ ((0.5 : ℚ) ≤ lowRateState.playbackRate + 0.15) := by
  constructor
  · norm_num [driftTick, computeTargetTime, lowRateState, abs]
  · norm_num [lowRateState]

/-- Claim C3 (amended): whenever the authoritative `playbackRate` lies in
[0.35, 2.15] — exactly the rates for which the claimed intersection
`[rate−0.15, rate+0.15] ∩ [0.5, 2.0]` is nonempty — every rate the drift
tick applies lies in that intersection.  Outside that range the claim fails:
at the permitted rate 0.25 the tick applies 0.5, which lies outside the
(empty) claimed intersection `[0.1, 0.4] ∩ [0.5, 2.0]` (see the
counterexample). -/
theorem driftTick_rate_within_bounds
    (s : RoomState) (nowWithSkew current rttMs integral0 nowPerf lastTime : ℚ)
    (videoPaused : Bool) (videoRate r : ℚ)
    (h1 : 0.35 ≤ s.playbackRate) (h2 : s.playbackRate ≤ 2.15)
    (hr : (driftTick s nowWithSkew current rttMs integral0 nowPerf lastTime
        videoPaused videoRate).appliedRate = some r) :
    s.playbackRate - 0.15 ≤ r ∧ r ≤ s.playbackRate + 0.15 ∧
      0.5 ≤ r ∧ r ≤ 2.0 := by
  have hb0 : s.playbackRate ≠ 0 := by
    intro h0
    rw [h0] at h1
    norm_num at h1
  have hbase : (if s.playbackRate = 0 then (1 : ℚ) else s.playbackRate) =
      s.playbackRate := if_neg hb0
  have hmm : max 0.5 (s.playbackRate - 0.15) ≤
      min 2.0 (s.playbackRate + 0.15) := by
    apply max_le
    · exact le_min (by norm_num) (by linarith)
    · exact le_min (by linarith) (by linarith)
  simp only [driftTick, hbase] at hr
  split at hr
  · simp at hr
  · simp only [Option.ite_none_right_eq_some, Option.some.injEq] at hr
    obtain ⟨-, hclamp⟩ := hr
    rw [← hclamp]
    have hub : max (max 0.5 (s.playbackRate - 0.15))
        (min (min 2.0 (s.playbackRate + 0.15))
          (s.playbackRate - 0.25 * (current - computeTargetTime s nowWithSkew) -
            0.05 * (if s.isPlaying && !videoPaused then
              max (-2) (min 2 (integral0 +
                (current - computeTargetTime s nowWithSkew) *
                  max 0.05 ((nowPerf - lastTime) / 1000)))
              else integral0))) ≤ min 2.0 (s.playbackRate + 0.15) :=
      max_le hmm (min_le_left _ _)
    refine ⟨?_, ?_, ?_, ?_⟩
    · exact le_trans (le_max_right _ _) (le_max_left _ _)
    · exact le_trans hub (min_le_right _ _)
    · exact le_trans (le_max_left _ _) (le_max_left _ _)
    · exact le_trans hub (min_le_left _ _)

/-- Witness for claim C3 (amended): the hypotheses are satisfiable — on the
spec's example state (rate 1 ∈ [0.35, 2.15]) a 0.5-second drift makes the
tick apply rate 0.8675, which lies inside [0.85, 1.15] ∩ [0.5, 2.0]. -/
theorem driftTick_rate_witness :
    (0.35 : ℚ) ≤ demoPlaying.playbackRate ∧
    (driftTick demoPlaying 0 10.5 200 0 300 0 false 1).appliedRate =
      some 0.8675 ∧
    (demoPlaying.playbackRate - 0.15 ≤ 0.8675 ∧
      (0.8675 : ℚ) ≤ demoPlaying.playbackRate + 0.15 ∧
      (0.5 : ℚ) ≤ 0.8675 ∧ (0.8675 : ℚ) ≤ 2.0) := by
  have happ : (driftTick demoPlaying 0 10.5 200 0 300 0 false 1).appliedRate =
      some 0.8675 := by
    norm_num [driftTick, computeTargetTime, demoPlaying, abs]
  exact ⟨by norm_num [demoPlaying], happ,
    driftTick_rate_within_bounds demoPlaying 0 10.5 200 0 300 0 false 1 0.8675
      (by norm_num [demoPlaying]) (by norm_num [demoPlaying]) happ⟩

/-- The participant ids of a user list, in iteration order. -/
def userIds (us : List PresenceUser) : List String :=
  us.map (fun u => u.id)

/-- Per-room invariant backing host uniqueness: ids are pairwise distinct
(`Map` keys), and every participant holding role `'host'` is the one tracked
by `hostSocketId`. -/
def roomInv (r : Room) : Prop :=
  (userIds r.users).Nodup ∧
  ∀ u ∈ r.users, u.role = Role.host → r.hostSocketId = some u.id

/-- Registry-level version of `roomInv`. -/
def hostInv (w : Registry) : Prop :=
  ∀ r, w.room = some r → roomInv r

/-- The tracked host socket of the (possibly absent) room. -/
def currentHostId (w : Registry) : Option String :=
  match w.room with
  | some r => r.hostSocketId
  | none => none

/-- An event is free of the host-join conflict when it does not request the
authoritative role while the room already tracks a host. -/
def eventOKHost (w : Registry) : SEvent → Prop
  | .join _ _ true _ => currentHostId w = none
  | _ => True

/-- Every event of the trace is conflict-free at the state where it fires. -/
def traceOKHost : Registry → List (ℤ × SEvent) → Prop
  | _, [] => True
  | w, (t, e) :: rest => eventOKHost w e ∧ traceOKHost (step w t e) rest

theorem userIds_usersSet_of_mem (us : List PresenceUser) (u : PresenceUser)
    (h : us.any (fun v => v.id = u.id) = true) :
    userIds (usersSet us u) = userIds us := by
  simp only [usersSet, if_pos h, userIds, List.map_map]
  apply List.map_congr_left
  intro v _
  by_cases hid : v.id = u.id
  · simp [hid]
  · simp [hid]

theorem userIds_usersSet_of_not_mem (us : List PresenceUser) (u : PresenceUser)
    (h : ¬ us.any (fun v => v.id = u.id) = true) :
    userIds (usersSet us u) = userIds us ++ [u.id] := by
  unfold usersSet
  rw [if_neg h]
  simp [userIds]

theorem nodup_usersSet (us : List PresenceUser) (u : PresenceUser)
    (hn : (userIds us).Nodup) : (userIds (usersSet us u)).Nodup := by
  by_cases h : us.any (fun v => v.id = u.id) = true
  · rw [userIds_usersSet_of_mem us u h]
    exact hn
  · rw [userIds_usersSet_of_not_mem us u h]
    have hnot : u.id ∉ userIds us := by
      intro hmem
      apply h
      rcases List.mem_map.mp hmem with ⟨v, hv, hveq⟩
      exact List.any_eq_true.mpr ⟨v, hv, by simp [hveq]⟩
    simp [List.nodup_append, hn, hnot]

theorem mem_usersSet {us : List PresenceUser} {u v : PresenceUser}
    (hv : v ∈ usersSet us u) : v = u ∨ (v ∈ us ∧ v.id ≠ u.id) := by
  unfold usersSet at hv
  split at hv
  · rcases List.mem_map.mp hv with ⟨w, hw, hweq⟩
    by_cases hid : w.id = u.id
    · left
      rw [← hweq]
      simp [hid]
    · right
      rw [← hweq]
      simp only [if_neg hid]
      exact ⟨hw, hid⟩
  · rcases List.mem_append.mp hv with h | h
    · right
      refine ⟨h, ?_⟩
      rename_i hany
      intro hid
      exact hany (List.any_eq_true.mpr ⟨v, h, by simp [hid]⟩)
    · left
      simpa using h

theorem mem_usersDelete {us : List PresenceUser} {sid : String}
    {v : PresenceUser} (hv : v ∈ usersDelete us sid) : v ∈ us ∧ v.id ≠ sid := by
  have := List.mem_filter.mp hv
  exact ⟨this.1, by simpa using this.2⟩

theorem nodup_usersDelete (us : List PresenceUser) (sid : String)
    (hn : (userIds us).Nodup) : (userIds (usersDelete us sid)).Nodup := by
  apply hn.sublist
  have hs : (usersDelete us sid).Sublist us := List.filter_sublist us
  exact hs.map (fun u => u.id)

theorem countP_host_le_one : ∀ (us : List PresenceUser) (hid : Option String),
    (userIds us).Nodup → (∀ u ∈ us, u.role = Role.host → hid = some u.id) →
    us.countP (fun u => u.role = Role.host) ≤ 1 := by
  intro us
  induction us with
  | nil => simp
  | cons a tl ih =>
    intro hid hnd hpt
    have hnd2 : (a.id :: userIds tl).Nodup := by simpa [userIds] using hnd
    by_cases ha : a.role = Role.host
    · have hida : hid = some a.id := hpt a (by simp) ha
      have htl : tl.countP (fun u => u.role = Role.host) = 0 := by
        rw [List.countP_eq_zero]
        intro u hu
        simp only [decide_eq_true_eq]
        intro hu_host
        have heq : hid = some u.id := hpt u (List.mem_cons_of_mem _ hu) hu_host
        rw [hida, Option.some.injEq] at heq
        have hnd1 : a.id ∉ userIds tl := (List.nodup_cons.mp hnd2).1
        exact hnd1 (heq ▸ List.mem_map.mpr ⟨u, hu, rfl⟩)
      simp [List.countP_cons, ha, htl]
    · have : (a :: tl).countP (fun u => u.role = Role.host) =
          tl.countP (fun u => u.role = Role.host) := by
        simp [List.countP_cons, ha]
      rw [this]
      refine ih hid ?_ ?_
      · exact (List.nodup_cons.mp hnd2).2
      · intro u hu hh
        exact hpt u (List.mem_cons_of_mem _ hu) hh

/-- Room-count consequence of the invariant. -/
theorem hostCount_le_one (w : Registry) (h : hostInv w) : hostCount w ≤ 1 := by
  cases hw : w.room with
  | none => simp [hostCount, hw]
  | some r =>
    obtain ⟨hnd, hpt⟩ := h r hw
    simp only [hostCount, hw]
    exact countP_host_le_one r.users r.hostSocketId hnd hpt

theorem roomInv_getOrCreate (w : Registry) (t : ℤ) (h : hostInv w) :
    roomInv (getOrCreateRoom t w.room) := by
  cases hw : w.room with
  | none =>
    constructor
    · simp [getOrCreateRoom, userIds]
    · intro u hu
      simp [getOrCreateRoom] at hu
  | some r =>
    simpa [getOrCreateRoom] using h r hw

theorem currentHostId_getOrCreate (w : Registry) (t : ℤ) :
    currentHostId w = (getOrCreateRoom t w.room).hostSocketId := by
  cases hw : w.room <;> simp [currentHostId, getOrCreateRoom, hw]

theorem roomInv_joinStep (w : Registry) (t : ℤ) (sid : String)
    (name : Option String) (asHost : Bool) (src : Option String)
    (h : hostInv w) (hok : asHost = true → currentHostId w = none) :
    hostInv (joinStep w t sid name asHost src) := by
  obtain ⟨hnd, hpt⟩ := roomInv_getOrCreate w t h
  intro r hr
  simp only [joinStep] at hr
  rw [Option.some.injEq] at hr
  subst hr
  by_cases hcond : asHost = true ∨ (getOrCreateRoom t w.room).hostSocketId = none
  · have hnone : (getOrCreateRoom t w.room).hostSocketId = none := by
      rcases hcond with ha | hn
      · rw [← currentHostId_getOrCreate w t]
        exact hok ha
      · exact hn
    rw [if_pos hcond]
    have key : roomInv
        { getOrCreateRoom t w.room with
            hostSocketId := some sid,
            users := usersSet (getOrCreateRoom t w.room).users
              { id := sid,
                name := match name with
                  | some n => if n = "" then "user-" ++ sid.take 4 else n
                  | none => "user-" ++ sid.take 4,
                role := Role.host, ready := none } } := by
      constructor
      · exact nodup_usersSet _ _ hnd
      · intro u hu hrole
        rcases mem_usersSet hu with rfl | ⟨hmem, hid⟩
        · rfl
        · have := hpt u hmem hrole
          rw [hnone] at this
          cases this
    cases src with
    | none => exact key
    | some s =>
      by_cases hs : s = ""
      · simp only [if_pos hcond, hs, if_pos rfl]
        exact key
      · simp only [if_pos hcond, if_neg hs]
        exact key
  · rw [if_neg hcond]
    have hhost : ¬ (getOrCreateRoom t w.room).hostSocketId = none := by
      intro hn
      exact hcond (Or.inr hn)
    have key : roomInv
        { getOrCreateRoom t w.room with
            users := usersSet (getOrCreateRoom t w.room).users
              { id := sid,
                name := match name with
                  | some n => if n = "" then "user-" ++ sid.take 4 else n
                  | none => "user-" ++ sid.take 4,
                role := Role.viewer, ready := none } } := by
      constructor
      · exact nodup_usersSet _ _ hnd
      · intro u hu hrole
        rcases mem_usersSet hu with rfl | ⟨hmem, _⟩
        · cases hrole
        · exact hpt u hmem hrole
    exact key

theorem roomInv_disconnectRoom (gr : Room) (sid : String) (h : roomInv gr) :
    roomInv (disconnectRoom gr sid) := by
  obtain ⟨hnd, hpt⟩ := h
  have hnd1 : (userIds (usersDelete gr.users sid)).Nodup := nodup_usersDelete _ _ hnd
  unfold disconnectRoom
  by_cases hhost : gr.hostSocketId = some sid
  · rw [if_pos hhost]
    have hno_host : ∀ u ∈ usersDelete gr.users sid, ¬ u.role = Role.host := by
      intro u hu hrole
      obtain ⟨hmem, hid⟩ := mem_usersDelete hu
      have heq : gr.hostSocketId = some u.id := hpt u hmem hrole
      rw [hhost, Option.some.injEq] at heq
      exact hid heq.symm
    cases hh : (usersDelete gr.users sid).head? with
    | none =>
      simp only [hh]
      have hempty : usersDelete gr.users sid = [] := List.head?_eq_none_iff.mp hh
      constructor
      · exact hnd1
      · intro u hu
        rw [hempty] at hu
        cases hu
    | some first =>
      simp only [hh]
      constructor
      · exact nodup_usersSet _ _ hnd1
      · intro u hu hrole
        rcases mem_usersSet hu with rfl | ⟨hmem, _⟩
        · rfl
        · exact absurd hrole (hno_host u hmem)
  · rw [if_neg hhost]
    constructor
    · exact hnd1
    · intro u hu hrole
      obtain ⟨hmem, _⟩ := mem_usersDelete hu
      exact hpt u hmem hrole

theorem roomInv_readyMap (gr : Room) (sid : String) (flag : Bool)
    (h : roomInv gr) :
    roomInv { gr with users := gr.users.map (fun v => if v.id = sid then { v with ready := some flag } else v) } := by
  obtain ⟨hnd, hpt⟩ := h
  constructor
  · have hids : userIds (gr.users.map
        (fun v => if v.id = sid then { v with ready := some flag } else v)) =
        userIds gr.users := by
      simp only [userIds, List.map_map]
      apply List.map_congr_left
      intro v _
      by_cases hv : v.id = sid <;> simp [hv]
    simpa [hids] using hnd
  · intro u hu hrole
    rcases List.mem_map.mp hu with ⟨v, hv, rfl⟩
    by_cases hvid : v.id = sid
    · simp only [if_pos hvid] at hrole ⊢
      exact hpt v hv hrole
    · simp only [if_neg hvid] at hrole ⊢
      exact hpt v hv hrole

/-- Conflict-free events preserve the host invariant. -/
theorem hostInv_step (w : Registry) (t : ℤ) (e : SEvent)
    (h : hostInv w) (hok : eventOKHost w e) : hostInv (step w t e) := by
  cases e with
  | join sid name asHost src =>
    cases asHost with
    | true => exact roomInv_joinStep w t sid name true src h (fun _ => hok)
    | false => exact roomInv_joinStep w t sid name false src h (fun hh => nomatch hh)
  | play =>
    intro r hr
    simp only [step] at hr
    rw [Option.some.injEq] at hr
    subst hr
    exact roomInv_getOrCreate w t h
  | pause a =>
    intro r hr
    simp only [step] at hr
    rw [Option.some.injEq] at hr
    subst hr
    exact roomInv_getOrCreate w t h
  | seek tm =>
    intro r hr
    simp only [step] at hr
    rw [Option.some.injEq] at hr
    subst hr
    exact roomInv_getOrCreate w t h
  | rate q =>
    intro r hr
    simp only [step] at hr
    rw [Option.some.injEq] at hr
    subst hr
    exact roomInv_getOrCreate w t h
  | ready sid flag =>
    intro r hr
    simp only [step, readyStep] at hr
    rw [Option.some.injEq] at hr
    subst hr
    exact roomInv_readyMap _ sid flag (roomInv_getOrCreate w t h)
  | disconnect sid =>
    have hr2 : roomInv (disconnectRoom (getOrCreateRoom t w.room) sid) :=
      roomInv_disconnectRoom _ sid (roomInv_getOrCreate w t h)
    intro r hr
    simp only [step, disconnectStep] at hr
    split at hr
    · cases hr
    · rw [Option.some.injEq] at hr
      subst hr
      exact hr2

/-- Claim C2 counterexample: in a fresh room, participant `"A"` joins without
requesting the authoritative role and becomes host; then `"B"` joins with
`asHost = true` and is also assigned role `'host'` while `"A"` keeps its
`'host'` role — the room then contains two participants with role `'host'`,
not at most one. -/
theorem second_asHost_join_two_hosts :
    hostCount (applyTrace reg0
      [(0, SEvent.join "A" (some "alice") false none),
       (1, SEvent.join "B" (some "bob") true none)]) = 2 := by
  rfl

/-- Claim C2 (amended): along every sequence of room events in which no
participant joins requesting the authoritative role while the room already
tracks a host (`hostSocketId` set), at most one participant holds role
`'host'` at any time.  Without that restriction the `join` handler assigns
`'host'` to the requester without demoting the current host, producing two
`'host'` participants (see the counterexample). -/
theorem at_most_one_host_of_no_conflicting_join (w : Registry)
    (evs : List (ℤ × SEvent)) (h : hostInv w) (hok : traceOKHost w evs) :
    hostCount (applyTrace w evs) ≤ 1 := by
  induction evs generalizing w with
  | nil => exact hostCount_le_one w h
  | cons pe rest ih =>
    obtain ⟨t, e⟩ := pe
    simp only [traceOKHost] at hok
    simp only [applyTrace]
    exact ih (step w t e) (hostInv_step w t e h hok.1) hok.2

/-- Witness for claim C2 (amended): the hypotheses are satisfiable on the
empty registry with a conflict-free trace — `"A"` joins (becoming host),
`"B"` joins as viewer, `"A"` disconnects handing the role to `"B"` — and the
conclusion holds. -/
theorem at_most_one_host_witness :
    hostCount (applyTrace reg0
      [(0, SEvent.join "A" (some "alice") false none),
       (1, SEvent.join "B" (some "bob") false none),
       (2, SEvent.disconnect "A")]) ≤ 1 :=
  at_most_one_host_of_no_conflicting_join reg0
    [(0, SEvent.join "A" (some "alice") false none),
     (1, SEvent.join "B" (some "bob") false none),
     (2, SEvent.disconnect "A")]
    (fun r hr => nomatch hr)
    (by simp [traceOKHost, eventOKHost])

/-- Join order A (authoritative), B, C, then A disconnects. -/
def handoffTrace : List (ℤ × SEvent) :=
  [(0, SEvent.join "A" (some "alice") false none),
   (1, SEvent.join "B" (some "bob") false none),
   (2, SEvent.join "C" (some "carol") false none),
   (3, SEvent.disconnect "A")]

/-- Claim C7: with participants joined in order A (authoritative), B, C, when
A disconnects the authoritative role passes to B — the first remaining
participant in the map's insertion order — while the heartbeat keeps running;
when B and C subsequently disconnect, the re-broadcast timer is cancelled and
the room entry is removed from the registry (the registry returns to its
empty state). -/
theorem host_handoff_scenario :
    ((applyTrace reg0 handoffTrace).room.map
        (fun r => r.users.map (fun u => (u.id, u.role)))) =
      some [("B", Role.host), ("C", Role.viewer)] ∧
    ((applyTrace reg0 handoffTrace).room.map (fun r => r.hostSocketId)) =
      some (some "B") ∧
    (applyTrace reg0 handoffTrace).heartbeatActive = true ∧
    applyTrace (applyTrace reg0 handoffTrace)
      [(4, SEvent.disconnect "B"), (5, SEvent.disconnect "C")] =
      { room := none, heartbeatActive := false } := by
  refine ⟨?_, ?_, ?_, ?_⟩ <;> rfl

/-- Numeric well-formedness of a timeline state at server time `t`:
nonnegative position, positive rate, and a reference timestamp not in the
future. -/
def stateOK (st : RoomState) (t : ℤ) : Prop :=
  0 ≤ st.baseMediaTime ∧ 0 < st.playbackRate ∧ st.baseServerTime ≤ t

/-- Registry-level version of `stateOK`. -/
def regOK (w : Registry) (t : ℤ) : Prop :=
  ∀ r, w.room = some r → stateOK r.state t

/-- A pause event is well-formed when its explicit `atMediaTime`, if
supplied, is nonnegative (the handler does not clamp it). -/
def pauseOK : SEvent → Prop
  | .pause (some a) => 0 ≤ a
  | _ => True

/-- A trace is chronological and pause-well-formed from time `t`: event times
never decrease and every explicit pause position is nonnegative. -/
def chronOK : Registry → ℤ → List (ℤ × SEvent) → Prop
  | _, _, [] => True
  | w, t, (t2, e) :: rest => t ≤ t2 ∧ pauseOK e ∧ chronOK (step w t2 e) t2 rest

/-- The position recomputed by the handlers (`current`/`computed`) is
nonnegative for a well-formed state evaluated at a time not before its
reference timestamp. -/
theorem current_nonneg (st : RoomState) (now : ℤ) (h : stateOK st now) :
    0 ≤ st.baseMediaTime +
      (if st.isPlaying then
        ((now : ℚ) - (st.baseServerTime : ℚ)) / 1000 * st.playbackRate else 0) := by
  obtain ⟨hb, hr, ht⟩ := h
  split
  · have hcast : (st.baseServerTime : ℚ) ≤ (now : ℚ) := by exact_mod_cast ht
    have helapsed : (0 : ℚ) ≤ ((now : ℚ) - (st.baseServerTime : ℚ)) / 1000 :=
      div_nonneg (by linarith) (by norm_num)
    nlinarith [mul_nonneg helapsed hr.le]
  · simpa using hb

theorem stateOK_getOrCreate (w : Registry) (t t2 : ℤ) (h : regOK w t)
    (hle : t ≤ t2) : stateOK (getOrCreateRoom t2 w.room).state t2 := by
  cases hw : w.room with
  | none =>
    refine ⟨?_, ?_, ?_⟩ <;> simp [getOrCreateRoom, defaultRoomState]
  | some r =>
    obtain ⟨hb, hr, ht⟩ := h r hw
    exact ⟨hb, hr, le_trans ht hle⟩

/-- Every event preserves timeline well-formedness, provided explicit pause
positions are nonnegative and time does not go backwards. -/
theorem regOK_step (w : Registry) (t t2 : ℤ) (e : SEvent)
    (h : regOK w t) (hle : t ≤ t2) (hp : pauseOK e) :
    regOK (step w t2 e) t2 := by
  have hgo : stateOK (getOrCreateRoom t2 w.room).state t2 :=
    stateOK_getOrCreate w t t2 h hle
  cases e with
  | join sid name asHost src =>
    intro r hr
    simp only [step, joinStep] at hr
    rw [Option.some.injEq] at hr
    subst hr
    obtain ⟨hb, hrr, ht⟩ := hgo
    refine ⟨?_, ?_, ?_⟩ <;>
      repeat first
        | exact hb
        | exact hrr
        | exact ht
        | split
  | play =>
    intro r hr
    simp only [step] at hr
    rw [Option.some.injEq] at hr
    subst hr
    exact ⟨current_nonneg _ t2 hgo, hgo.2.1, le_refl t2⟩
  | pause a =>
    intro r hr
    simp only [step] at hr
    rw [Option.some.injEq] at hr
    subst hr
    refine ⟨?_, hgo.2.1, le_refl t2⟩
    cases a with
    | none => exact current_nonneg _ t2 hgo
    | some q => exact hp
  | seek tm =>
    intro r hr
    simp only [step] at hr
    rw [Option.some.injEq] at hr
    subst hr
    exact ⟨le_max_left 0 tm, hgo.2.1, le_refl t2⟩
  | rate q =>
    intro r hr
    simp only [step] at hr
    rw [Option.some.injEq] at hr
    subst hr
    refine ⟨current_nonneg _ t2 hgo, ?_, le_refl t2⟩
    exact lt_of_lt_of_le (by norm_num) (le_max_left 0.25 (min 4 q))
  | ready sid flag =>
    intro r hr
    simp only [step, readyStep] at hr
    rw [Option.some.injEq] at hr
    subst hr
    exact hgo
  | disconnect sid =>
    intro r hr
    simp only [step, disconnectStep] at hr
    split at hr
    · cases hr
    · rw [Option.some.injEq] at hr
      subst hr
      have hstate : (disconnectRoom (getOrCreateRoom t2 w.room) sid).state =
          (getOrCreateRoom t2 w.room).state := by
        simp only [disconnectRoom]
        split
        · split <;> rfl
        · rfl
      rw [hstate]
      exact hgo

/-- Claim C8 (amended): along every chronological event trace in which each
pause's explicit `atMediaTime` (when supplied) is nonnegative, every
reachable timeline state satisfies `baseMediaTime ≥ 0`: seek clamps its
argument to ≥ 0 and play/pause/rate rebase to a nonnegative recomputed
position.  The pause handler, however, does not clamp an explicit
`atMediaTime`, so a negative one violates the invariant (see the
counterexample). -/
theorem baseMediaTime_nonneg_of_ok_trace (w : Registry) (t : ℤ)
    (evs : List (ℤ × SEvent)) (h : regOK w t) (hok : chronOK w t evs)
    (r : Room) (hr : (applyTrace w evs).room = some r) :
    0 ≤ r.state.baseMediaTime := by
  induction evs generalizing w t with
  | nil =>
    simp only [applyTrace] at hr
    exact (h r hr).1
  | cons pe rest ih =>
    obtain ⟨t2, e⟩ := pe
    simp only [chronOK] at hok
    simp only [applyTrace] at hr
    exact ih (step w t2 e) t2 (regOK_step w t t2 e h hok.1 hok.2.1) hok.2.2 hr

/-- Claim C8 counterexample: a pause carrying an explicit `atMediaTime` of
−5 seconds is stored unclamped, leaving `baseMediaTime = −5 < 0`. -/
theorem pause_negative_atMediaTime :
    ((applyTrace reg0
        [(0, SEvent.join "A" (some "alice") false none),
         (1, SEvent.pause (some (-5)))]).room.map
      (fun r => r.state.baseMediaTime)) = some (-5) ∧ ((-5 : ℚ) < 0) := by
  constructor
  · rfl
  · norm_num

/-- Demonstration trace for the C8 witness: join, play, a negative seek
(clamped to 0), then an implicit pause. -/
def c8Trace : List (ℤ × SEvent) :=
  [(0, SEvent.join "A" (some "alice") false none),
   (5, SEvent.play),
   (7, SEvent.seek (-3)),
   (9, SEvent.pause none)]

/-- Final room of the C8 witness trace: the pause froze the timeline at
(9 − 7)/1000 · 1 = 1/500 seconds. -/
def c8Final : Room :=
  { state := { isPlaying := false, baseMediaTime := 1/500, baseServerTime := 9,
               playbackRate := 1, src := none },
    users := [{ id := "A", name := "alice", role := Role.host, ready := none }],
    hostSocketId := some "A" }

/-- Witness for claim C8 (amended): the hypotheses are satisfiable — the
demonstration trace is chronological with no explicit pause position — and
the final reachable state indeed has a nonnegative `baseMediaTime`. -/
theorem baseMediaTime_nonneg_witness :
    (applyTrace reg0 c8Trace).room = some c8Final ∧
    0 ≤ c8Final.state.baseMediaTime := by
  have happ : (applyTrace reg0 c8Trace).room = some c8Final := by
    simp +decide [applyTrace, step, joinStep, getOrCreateRoom, defaultRoomState,
      usersSet, playStep, seekStep, pauseStep, c8Trace, c8Final, reg0]
    norm_num
  refine ⟨happ, ?_⟩
  exact baseMediaTime_nonneg_of_ok_trace reg0 0 c8Trace
    (fun r hr => nomatch hr)
    (by norm_num [chronOK, pauseOK, c8Trace]) c8Final happ

end Vid
